import Mathlib

/-!
Shallow embedding of the `pyams_auth_ldap.zmi` module: the LDAP entry
detail lookup (`LDAPEntryPropertiesDisplayForm.ldap_entry`), the search
results values and columns, the base LDAP table column `get_value`, and
the declarative add/edit inner-tab-form registrations.
-/

namespace PyamsAuthLdap

/-- A Python value as it occurs in LDAP attribute mappings in this module:
a (unicode) string, a raw byte string (each byte `< 256`), or a list of
values. -/
inductive PyVal where
  | str (s : String)
  | bytes (bs : List Nat)
  | list (vs : List PyVal)

mutual

/-- Decidable equality on `PyVal` (not derivable for a nested inductive). -/
def PyVal.decEq : (a b : PyVal) → Decidable (a = b)
  | .str a, .str b =>
      if h : a = b then .isTrue (congrArg PyVal.str h)
      else .isFalse (fun hc => h (PyVal.str.inj hc))
  | .str _, .bytes _ => .isFalse (fun hc => PyVal.noConfusion hc)
  | .str _, .list _ => .isFalse (fun hc => PyVal.noConfusion hc)
  | .bytes _, .str _ => .isFalse (fun hc => PyVal.noConfusion hc)
  | .bytes a, .bytes b =>
      if h : a = b then .isTrue (congrArg PyVal.bytes h)
      else .isFalse (fun hc => h (PyVal.bytes.inj hc))
  | .bytes _, .list _ => .isFalse (fun hc => PyVal.noConfusion hc)
  | .list _, .str _ => .isFalse (fun hc => PyVal.noConfusion hc)
  | .list _, .bytes _ => .isFalse (fun hc => PyVal.noConfusion hc)
  | .list as, .list bs =>
      match PyVal.decEqList as bs with
      | .isTrue h => .isTrue (congrArg PyVal.list h)
      | .isFalse h => .isFalse (fun hc => h (PyVal.list.inj hc))

/-- Decidable equality on lists of `PyVal`. -/
def PyVal.decEqList : (as bs : List PyVal) → Decidable (as = bs)
  | [], [] => .isTrue rfl
  | [], _ :: _ => .isFalse (fun hc => List.noConfusion hc)
  | _ :: _, [] => .isFalse (fun hc => List.noConfusion hc)
  | a :: as, b :: bs =>
      match PyVal.decEq a b with
      | .isFalse h => .isFalse (fun hc => h (List.cons.inj hc).1)
      | .isTrue h1 =>
          match PyVal.decEqList as bs with
          | .isTrue h2 => .isTrue (by rw [h1, h2])
          | .isFalse h2 => .isFalse (fun hc => h2 (List.cons.inj hc).2)

end

instance : DecidableEq PyVal := PyVal.decEq

/-- A Python dict mapping attribute names to values, as an association list
(Python dicts have unique keys; lookups return the first match). -/
abbrev Dict := List (String × PyVal)

/-- Python `d.get(k)`: first value bound to `k`, or `None` when absent. -/
def alistGet {β : Type} : List (String × β) → String → Option β
  | [], _ => none
  | (k', v) :: rest, k => if k' = k then some v else alistGet rest k

/-- Python `d[k] = v` on a dict: replace the (first) binding of `k` in
place, or append a new binding when `k` is absent. -/
def dictSet : Dict → String → PyVal → Dict
  | [], k, v => [(k, v)]
  | (k', v') :: rest, k, v =>
      if k' = k then (k, v) :: rest else (k', v') :: dictSet rest k v

/-- The standard base64 alphabet character for a 6-bit value. -/
def b64char (n : Nat) : Char :=
  "ABCDEFGHIJKLMNOPQRSTUVWXYZabcdefghijklmnopqrstuvwxyz0123456789+/".toList.getD n 'A'

/-- Base64-encode a byte list three bytes at a time, padding with `=`
(the core of `binascii.b2a_base64`). -/
def b64groups : List Nat → List Char
  | [] => []
  | [a] => [b64char (a / 4), b64char (a % 4 * 16), '=', '=']
  | [a, b] => [b64char (a / 4), b64char (a % 4 * 16 + b / 16), b64char (b % 16 * 4), '=']
  | a :: b :: c :: rest =>
      b64char (a / 4) :: b64char (a % 4 * 16 + b / 16) ::
        b64char (b % 16 * 4 + c / 64) :: b64char (c % 64) :: b64groups rest

/-- Break a character stream into lines of 76 characters, each line
(including the final partial one) terminated by a newline; the first
argument is the budget left on the current line. -/
def wrap76 : Nat → List Char → List Char
  | _, [] => ['\n']
  | Nat.succ k, c :: cs => c :: wrap76 k cs
  | 0, c :: cs => '\n' :: c :: wrap76 75 cs

/-- Python `base64.encodebytes(bs).decode()`: `binascii.b2a_base64` is
applied to 57-byte input chunks, appending a newline to each; since a
full 57-byte chunk encodes to exactly 76 base64 characters and 57 is a
multiple of 3 (so padding only ever occurs in the final chunk), this is
the base64 stream of the whole input broken into newline-terminated
76-character lines; the empty input encodes to the empty string. -/
def encodebytes (bs : List Nat) : String :=
  match bs with
  | [] => ""
  | _ :: _ => String.mk (wrap76 76 (b64groups bs))

/-- The inline image markup built for a binary photo attribute:
`'<img src="data:image/jpeg;base64,{0}" />'.format(...)`. -/
def img_markup (bs : List Nat) : String :=
  "<img src=\"data:image/jpeg;base64," ++ encodebytes bs ++ "\" />"

/-- `if isinstance(photo, list): photo = photo[0]` — take the first list
element (`none` models the `IndexError` on an empty list), leave a
non-list value unchanged. -/
def photoFirst : PyVal → Option PyVal
  | .list vs => vs.head?
  | v => some v

/-- The photo post-processing block of `ldap_entry` for one attribute
name: when the attribute is present, take the first element if it is a
list, base64-encode the bytes and store a one-element list holding the
image markup; `none` models the uncaught exception when the value is
an empty list or not a byte string. -/
def processPhoto (attributes : Dict) (name : String) : Option Dict :=
  match alistGet attributes name with
  | none => some attributes
  | some photo =>
      match photoFirst photo with
      | none => none
      | some (.bytes bs) =>
          some (dictSet attributes name (.list [.str (img_markup bs)]))
      | some _ => none

/-- An opaque LDAP connection token: the module only threads the
connection through, never inspects it. -/
structure LDAPConnection where
  token : Nat
deriving Repr, DecidableEq

/-- The `ldap3` search-scope constants (`BASE`, `LEVEL`, `SUBTREE`). -/
inductive SearchScope where
  | BASE
  | LEVEL
  | SUBTREE
deriving Repr, DecidableEq

/-- An `ldap3` attribute selection: `ALL_ATTRIBUTES` or an explicit list. -/
inductive AttrSelection where
  | ALL_ATTRIBUTES
  | attrList (names : List String)
deriving Repr, DecidableEq

/-- The argument record of `LDAPQuery(base_dn, filter, scope, attributes)`
as constructed by this module (`base_dn` is the raw request parameter,
possibly `None`). -/
structure LDAPQuery where
  base_dn : Option String
  filter : String
  scope : SearchScope
  attributes : AttrSelection
deriving Repr, DecidableEq

/-- A web request, reduced to its query parameters (`request.params`). -/
structure Request where
  params : List (String × String)

/-- `request.params.get(k)`. -/
def Request.get_param (r : Request) (k : String) : Option String :=
  alistGet r.params k

/-- The LDAP plugin configuration object (`ILDAPPlugin`), reduced to the
members this module uses.  Modelled from the spec: the plugin is external,
"exposing connection parameters, schema-mapping attributes ... and methods
`get_connection()` and `get_search_results(criteria)`". -/
structure LDAPPlugin where
  connection : LDAPConnection
  uid_attribute : String
  search_results : List (String × Option String) → List (String × Dict)

/-- Modelled from the spec: `get_connection()` returns the plugin's LDAP
connection object (implementation external to this module). -/
def LDAPPlugin.get_connection (p : LDAPPlugin) : LDAPConnection :=
  p.connection

/-- Modelled from the spec: `get_search_results(criteria)` is the plugin's
external search method; the module only forwards a criteria mapping. -/
def LDAPPlugin.get_search_results (p : LDAPPlugin)
    (criteria : List (String × Option String)) : List (String × Dict) :=
  p.search_results criteria

/-- `query.execute(conn)` is external (`pyams_auth_ldap.query`); an
executor abstracts it as a function from connection and query to the
result list of `(dn, attributes)` pairs. -/
abbrev Executor := LDAPConnection → LDAPQuery → List (String × Dict)

/-- The dict returned by `ldap_entry`: either the empty dict `{}` or the
two-key dict `{'dn': dn, 'attributes': result}`. -/
inductive ResultDict where
  | empty
  | entry (dn : String) (attributes : Dict)
deriving DecidableEq

/-- The key list of the returned dict. -/
def ResultDict.keys : ResultDict → List String
  | .empty => []
  | .entry _ _ => ["dn", "attributes"]

/-- `result.get('dn')`. -/
def ResultDict.get_dn : ResultDict → Option String
  | .empty => none
  | .entry d _ => some d

/-- `result.get('attributes', ())` as used by the properties table. -/
def ResultDict.get_attributes : ResultDict → Dict
  | .empty => []
  | .entry _ attrs => attrs

/-- Lexicographic `≤` on character lists, comparing characters by code
point, as Python compares strings. -/
def charListLe : List Char → List Char → Bool
  | [], _ => true
  | _ :: _, [] => false
  | a :: as, b :: bs =>
      if a.toNat < b.toNat then true
      else if b.toNat < a.toNat then false
      else charListLe as bs

/-- Lexicographic `≤` on strings (code-point order, as in Python). -/
def strLe (a b : String) : Bool :=
  charListLe a.data b.data

/-- The sort order of `sorted(attributes.items(), key=lambda x: x[0])`:
compare attribute pairs by attribute name. -/
def attrLe (x y : String × PyVal) : Prop :=
  strLe x.1 y.1 = true

instance : DecidableRel attrLe :=
  fun x y => inferInstanceAs (Decidable (strLe x.1 y.1 = true))

/-- `sorted(attributes.items(), key=lambda x: x[0])`: a stable ascending
sort of the attribute pairs by attribute name. -/
def sort_attributes (attrs : Dict) : Dict :=
  List.insertionSort attrLe attrs

/-- The body of `ldap_entry` applied to the query result: zero or several
entries yield the empty dict; a single entry has its two photo attributes
post-processed and its attributes sorted by name (`none` models an
uncaught exception inside the photo processing). -/
def ldap_entry_of_result : List (String × Dict) → Option ResultDict
  | [(dn, attributes)] =>
      match processPhoto attributes "jpegPhoto" with
      | none => none
      | some a1 =>
          match processPhoto a1 "thumbnailPhoto" with
          | none => none
          | some a2 => some (.entry dn (sort_attributes a2))
  | _ => some .empty

/-- The query object built by `ldap_entry`:
`LDAPQuery(dn, '(objectclass=*)', BASE, ALL_ATTRIBUTES)` with `dn` the
request's `dn` parameter. -/
def ldap_entry_query (req : Request) : LDAPQuery :=
  ⟨req.get_param "dn", "(objectclass=*)", SearchScope.BASE,
    AttrSelection.ALL_ATTRIBUTES⟩

/-- `LDAPEntryPropertiesDisplayForm.ldap_entry`, instrumented with the
trace of `(connection, query)` pairs passed to `LDAPQuery(...).execute`:
build one base-scope query for the request's `dn` parameter with filter
`(objectclass=*)` and `ALL_ATTRIBUTES`, run it on `get_connection()`, and
post-process the result. -/
def ldap_entry_run (plugin : LDAPPlugin) (req : Request) (execute : Executor) :
    List (LDAPConnection × LDAPQuery) × Option ResultDict :=
  let conn := plugin.get_connection
  let query := ldap_entry_query req
  ([(conn, query)], ldap_entry_of_result (execute conn query))

/-- The value of the `ldap_entry` property itself. -/
def ldap_entry (plugin : LDAPPlugin) (req : Request) (execute : Executor) :
    Option ResultDict :=
  (ldap_entry_run plugin req execute).2

/-- `LDAPEntryPropertiesTableValues.values`: the rows of the entry
properties table, `ldap_entry.get('attributes', ())`. -/
def LDAPEntryPropertiesTableValues_values (e : ResultDict) : Dict :=
  e.get_attributes

/-- `LDAPPluginSearchResultsValues.values`: forward
`get_search_results({'query': request.params.get('form.widgets.query')})`. -/
def LDAPPluginSearchResultsValues_values (plugin : LDAPPlugin) (req : Request) :
    List (String × Dict) :=
  plugin.get_search_results [("query", req.get_param "form.widgets.query")]

/-- `'<br /> '.join(value)`: join a list of Python values with the
separator; `none` models the `TypeError` raised on a non-string element. -/
def joinWith (sep : String) : List PyVal → Option String
  | [] => some ""
  | [PyVal.str s] => some s
  | PyVal.str s :: rest => (joinWith sep rest).map (fun t => s ++ sep ++ t)
  | _ => none

/-- `LDAPColumn.get_value`: look the column's attribute up in the entry's
attribute mapping with default `()`, join list values with `'<br /> '`,
and return any other value unchanged. -/
def LDAPColumn_get_value (attr : String) (obj : String × Dict) : Option PyVal :=
  match alistGet obj.2 attr with
  | none => (joinWith "<br /> " []).map PyVal.str
  | some (PyVal.list vs) => (joinWith "<br /> " vs).map PyVal.str
  | some v => some v

/-- A column registered on the search results table via `adapter_config`:
its registration name, the entry attribute it displays (`attr_name`, a
function of the plugin since the UID column reads `uid_attribute`), and
its weight. -/
structure ColumnReg where
  name : String
  attr_of : LDAPPlugin → String
  weight : Nat

/-- The columns registered against `LDAPPluginSearchResultsTable`:
`LDAPPluginSearchUIDColumn`, `LDAPPluginSearchCNColumn`,
`LDAPPluginSearchMailColumn`. -/
def search_table_columns : List ColumnReg :=
  [⟨"uid", fun p => p.uid_attribute, 10⟩,
   ⟨"cn", fun _ => "cn", 20⟩,
   ⟨"mail", fun _ => "mail", 30⟩]

/-- An inner tab form registered via `adapter_config(provides=IInnerTabForm)`
against an add or edit form: its registration name, weight, the field
names selected by its own `fields` attribute (`none` when the class
declares no fields), and whether it implements
`ILDAPPluginConnectionSubform` (making the `IFormFields` adapter
`ldap_plugin_connection_fields` supply its fields). -/
structure InnerTabReg where
  name : String
  weight : Nat
  own_fields : Option (List String)
  connection_subform : Bool

/-- The `ldap_plugin_connection_fields` adapter: connection fields for any
view implementing `ILDAPPluginConnectionSubform`. -/
def ldap_plugin_connection_fields : List String :=
  ["server_uri", "start_tls", "bind_dn", "bind_password", "bind_mode"]

/-- Field selection of `LDAPPluginUsersSchemaAddForm`. -/
def users_schema_add_fields : List String :=
  ["base_dn", "search_scope", "login_attribute", "login_query", "uid_attribute",
   "uid_query", "title_format", "mail_attribute", "user_extra_attributes"]

/-- Field selection of `LDAPPluginGroupsSchemaAddForm`. -/
def groups_schema_add_fields : List String :=
  ["groups_base_dn", "groups_search_scope", "group_prefix", "group_uid_attribute",
   "group_title_format", "group_members_query_mode", "groups_query",
   "group_members_attribute", "user_groups_attribute", "group_mail_mode",
   "group_replace_expression", "group_mail_attribute", "group_extra_attributes"]

/-- Field selection of `LDAPPluginSearchSettingsAddForm`. -/
def search_settings_add_fields : List String :=
  ["users_select_query", "users_search_query", "groups_select_query",
   "groups_search_query"]

/-- Field selection of `LDAPPluginUsersSchemaEditForm`. -/
def users_schema_edit_fields : List String :=
  ["base_dn", "search_scope", "login_attribute", "login_query", "uid_attribute",
   "uid_query", "title_format", "mail_attribute", "user_extra_attributes"]

/-- Field selection of `LDAPPluginGroupsSchemaEditForm`. -/
def groups_schema_edit_fields : List String :=
  ["groups_base_dn", "groups_search_scope", "group_prefix", "group_uid_attribute",
   "group_title_format", "group_members_query_mode", "groups_query",
   "group_members_attribute", "user_groups_attribute", "group_mail_mode",
   "group_replace_expression", "group_mail_attribute", "group_extra_attributes"]

/-- Field selection of `LDAPPluginSearchSettingsEditForm`. -/
def search_settings_edit_fields : List String :=
  ["users_select_query", "users_search_query", "groups_select_query",
   "groups_search_query"]

/-- The inner tab forms registered against `LDAPPluginAddForm`:
`LDAPPluginConnectionAddForm` (fields from the connection subform
adapter), `LDAPPluginUsersSchemaAddForm`, `LDAPPluginGroupsSchemaAddForm`,
`LDAPPluginSearchSettingsAddForm`. -/
def add_form_tabs : List InnerTabReg :=
  [⟨"connection", 1, none, true⟩,
   ⟨"users-schema", 10, some users_schema_add_fields, false⟩,
   ⟨"groups-schema", 20, some groups_schema_add_fields, false⟩,
   ⟨"search-settings", 30, some search_settings_add_fields, false⟩]

/-- The inner tab forms registered against
`LDAPPluginPropertiesEditForm`: `LDAPPluginConnectionEditForm` (fields
from the connection subform adapter), `LDAPPluginUsersSchemaEditForm`,
`LDAPPluginGroupsSchemaEditForm`, `LDAPPluginSearchSettingsEditForm`. -/
def edit_form_tabs : List InnerTabReg :=
  [⟨"connection", 1, none, true⟩,
   ⟨"users-schema", 10, some users_schema_edit_fields, false⟩,
   ⟨"groups-schema", 20, some groups_schema_edit_fields, false⟩,
   ⟨"search-settings", 30, some search_settings_edit_fields, false⟩]

/-- The effective field selection of a tab form: its own `fields`
attribute when declared, otherwise the fields supplied by the
`IFormFields` adapter (`ldap_plugin_connection_fields` for connection
subforms). -/
def resolved_fields (t : InnerTabReg) : List String :=
  match t.own_fields with
  | some fs => fs
  | none => if t.connection_subform then ldap_plugin_connection_fields else []

/-! ### Dictionary lemmas -/

theorem alistGet_dictSet_self (d : Dict) (k : String) (v : PyVal) :
    alistGet (dictSet d k v) k = some v := by
  induction d with
  | nil => simp [dictSet, alistGet]
  | cons kv rest ih =>
      obtain ⟨k', v'⟩ := kv
      by_cases h : k' = k
      · subst h; simp [dictSet, alistGet]
      · simp [dictSet, alistGet, h, ih]

theorem alistGet_dictSet_ne (d : Dict) {m k : String} (v : PyVal) (h : m ≠ k) :
    alistGet (dictSet d k v) m = alistGet d m := by
  have h' : ¬ k = m := fun hc => h hc.symm
  induction d with
  | nil => simp [dictSet, alistGet, h']
  | cons kv rest ih =>
      obtain ⟨k', v'⟩ := kv
      by_cases hk : k' = k
      · subst hk; simp [dictSet, alistGet, h']
      · simp [dictSet, alistGet, hk, ih]

theorem mem_dictSet_self (d : Dict) (k : String) (v : PyVal) :
    (k, v) ∈ dictSet d k v := by
  induction d with
  | nil => simp [dictSet]
  | cons kv rest ih =>
      obtain ⟨k', v'⟩ := kv
      by_cases h : k' = k <;> simp [dictSet, h, ih]

theorem mem_dictSet_of_ne (d : Dict) {m k : String} {w v : PyVal} (h : m ≠ k)
    (hm : (m, w) ∈ d) : (m, w) ∈ dictSet d k v := by
  induction d with
  | nil => simp at hm
  | cons kv rest ih =>
      obtain ⟨k', v'⟩ := kv
      rcases List.mem_cons.mp hm with h1 | h1
      · rw [Prod.mk.injEq] at h1
        obtain ⟨rfl, rfl⟩ := h1
        simp only [dictSet, if_neg h]
        exact List.mem_cons_self _ _
      · by_cases hk : k' = k
        · subst hk
          simp only [dictSet, if_pos rfl]
          exact List.mem_cons_of_mem _ h1
        · simp only [dictSet, if_neg hk]
          exact List.mem_cons_of_mem _ (ih h1)

theorem keys_dictSet (d : Dict) (k : String) (v : PyVal) :
    (dictSet d k v).map Prod.fst = d.map Prod.fst ∨
      (k ∉ d.map Prod.fst ∧
        (dictSet d k v).map Prod.fst = d.map Prod.fst ++ [k]) := by
  induction d with
  | nil => right; simp [dictSet]
  | cons kv rest ih =>
      obtain ⟨k', v'⟩ := kv
      by_cases hk : k' = k
      · subst hk; left; simp [dictSet]
      · rcases ih with ih | ⟨ih1, ih2⟩
        · left; simp [dictSet, hk, ih]
        · right
          refine ⟨?_, by simp [dictSet, hk, ih2]⟩
          simp only [List.map_cons, List.mem_cons]
          rintro (hc | hc)
          · exact hk hc.symm
          · exact ih1 hc

theorem nodup_keys_dictSet {d : Dict} {k : String} {v : PyVal}
    (h : (d.map Prod.fst).Nodup) : ((dictSet d k v).map Prod.fst).Nodup := by
  rcases keys_dictSet d k v with heq | ⟨hnotin, heq⟩
  · rw [heq]; exact h
  · rw [heq]
    simp [List.nodup_append, h, hnotin]

theorem alistGet_eq_some_of_mem {d : Dict} {k : String} {v : PyVal}
    (hnd : (d.map Prod.fst).Nodup) (hm : (k, v) ∈ d) : alistGet d k = some v := by
  induction d with
  | nil => simp at hm
  | cons kv rest ih =>
      obtain ⟨k', v'⟩ := kv
      simp only [List.map_cons, List.nodup_cons] at hnd
      rcases List.mem_cons.mp hm with h1 | h1
      · rw [Prod.mk.injEq] at h1
        obtain ⟨rfl, rfl⟩ := h1
        simp [alistGet]
      · have hk : ¬ k' = k := fun he => hnd.1 (he ▸ List.mem_map_of_mem Prod.fst h1)
        simp only [alistGet, if_neg hk]
        exact ih hnd.2 h1

theorem mem_of_alistGet_eq_some {d : Dict} {k : String} {v : PyVal}
    (h : alistGet d k = some v) : (k, v) ∈ d := by
  induction d with
  | nil => simp [alistGet] at h
  | cons kv rest ih =>
      obtain ⟨k', v'⟩ := kv
      by_cases hk : k' = k
      · subst hk
        simp [alistGet] at h
        subst h
        exact List.mem_cons_self _ _
      · simp only [alistGet, if_neg hk] at h
        exact List.mem_cons_of_mem _ (ih h)

theorem alistGet_eq_none_iff {d : Dict} {k : String} :
    alistGet d k = none ↔ k ∉ d.map Prod.fst := by
  induction d with
  | nil => simp [alistGet]
  | cons kv rest ih =>
      obtain ⟨k', v'⟩ := kv
      by_cases hk : k' = k
      · subst hk; simp [alistGet]
      · have hk' : ¬ k = k' := fun hc => hk hc.symm
        simp [alistGet, hk, ih, hk', not_or]

theorem alistGet_perm {d d' : Dict} (k : String)
    (hnd : (d.map Prod.fst).Nodup) (hp : d.Perm d') : alistGet d' k = alistGet d k := by
  cases h : alistGet d k with
  | none =>
      rw [alistGet_eq_none_iff]
      intro hmem
      exact (alistGet_eq_none_iff.mp h) (((hp.map Prod.fst).mem_iff).mpr hmem)
  | some v =>
      exact alistGet_eq_some_of_mem ((hp.map Prod.fst).nodup hnd)
        (hp.mem_iff.mp (mem_of_alistGet_eq_some h))

/-! ### Order lemmas for the attribute sort -/

theorem charListLe_total : ∀ a b : List Char, charListLe a b = true ∨ charListLe b a = true
  | [], _ => Or.inl rfl
  | _ :: _, [] => Or.inr rfl
  | a :: as, b :: bs => by
      rcases Nat.lt_trichotomy a.toNat b.toNat with h | h | h
      · left; simp [charListLe, h]
      · have h1 : ¬ a.toNat < b.toNat := by omega
        have h2 : ¬ b.toNat < a.toNat := by omega
        rcases charListLe_total as bs with ih | ih
        · left; simp [charListLe, h1, h2, ih]
        · right; simp [charListLe, h1, h2, ih]
      · right; simp [charListLe, h]

theorem charListLe_trans :
    ∀ a b c : List Char,
      charListLe a b = true → charListLe b c = true → charListLe a c = true
  | [], _, _, _, _ => rfl
  | _ :: _, [], _, h, _ => by simp [charListLe] at h
  | _ :: _, _ :: _, [], _, h => by simp [charListLe] at h
  | x :: xs, y :: ys, z :: zs, h1, h2 => by
      simp only [charListLe] at h1 h2 ⊢
      by_cases hxy : x.toNat < y.toNat
      · by_cases hxz : x.toNat < z.toNat
        · simp [hxz]
        · -- from x < y and ¬ x < z we get z ≤ x < y, so z < y and h2 is false
          by_cases hyz : y.toNat < z.toNat
          · omega
          · have hzy : z.toNat < y.toNat := by omega
            rw [if_neg hyz, if_pos hzy] at h2
            exact absurd h2 (by simp)
      · by_cases hyx : y.toNat < x.toNat
        · rw [if_neg hxy, if_pos hyx] at h1
          exact absurd h1 (by simp)
        · rw [if_neg hxy, if_neg hyx] at h1
          by_cases hyz : y.toNat < z.toNat
          · have hxz : x.toNat < z.toNat := by omega
            simp [hxz]
          · by_cases hzy : z.toNat < y.toNat
            · rw [if_neg hyz, if_pos hzy] at h2
              exact absurd h2 (by simp)
            · rw [if_neg hyz, if_neg hzy] at h2
              have hxz : ¬ x.toNat < z.toNat := by omega
              have hzx : ¬ z.toNat < x.toNat := by omega
              rw [if_neg hxz, if_neg hzx]
              exact charListLe_trans xs ys zs h1 h2

theorem sort_attributes_perm (d : Dict) : (sort_attributes d).Perm d :=
  List.perm_insertionSort attrLe d

theorem sort_attributes_sorted (d : Dict) : (sort_attributes d).Pairwise attrLe := by
  haveI : IsTotal (String × PyVal) attrLe :=
    ⟨fun x y => charListLe_total x.1.data y.1.data⟩
  haveI : IsTrans (String × PyVal) attrLe :=
    ⟨fun x y z => charListLe_trans x.1.data y.1.data z.1.data⟩
  exact List.sorted_insertionSort attrLe d

theorem mem_sort_attributes {d : Dict} {x : String × PyVal} :
    x ∈ sort_attributes d ↔ x ∈ d :=
  (sort_attributes_perm d).mem_iff

theorem alistGet_sort_attributes {d : Dict} (k : String)
    (hnd : (d.map Prod.fst).Nodup) :
    alistGet (sort_attributes d) k = alistGet d k :=
  alistGet_perm k hnd (sort_attributes_perm d).symm

/-! ### Photo post-processing lemmas -/

theorem processPhoto_none {d : Dict} {n : String} (h : alistGet d n = none) :
    processPhoto d n = some d := by
  simp [processPhoto, h]

theorem processPhoto_bytes {d : Dict} {n : String} {p : PyVal} {bs : List Nat}
    (h1 : alistGet d n = some p) (h2 : photoFirst p = some (.bytes bs)) :
    processPhoto d n = some (dictSet d n (.list [.str (img_markup bs)])) := by
  simp [processPhoto, h1, h2]

theorem processPhoto_inv {d d' : Dict} {n : String}
    (h : processPhoto d n = some d') :
    (alistGet d n = none ∧ d' = d) ∨
      ∃ p bs, alistGet d n = some p ∧ photoFirst p = some (.bytes bs) ∧
        d' = dictSet d n (.list [.str (img_markup bs)]) := by
  cases hget : alistGet d n with
  | none =>
      left
      rw [processPhoto_none hget] at h
      exact ⟨rfl, (Option.some.inj h).symm⟩
  | some p =>
      cases hfirst : photoFirst p with
      | none =>
          have hn : processPhoto d n = none := by simp [processPhoto, hget, hfirst]
          rw [hn] at h
          cases h
      | some q =>
          cases q with
          | bytes bs =>
              right
              rw [processPhoto_bytes hget hfirst] at h
              exact ⟨p, bs, rfl, hfirst, (Option.some.inj h).symm⟩
          | str s =>
              have hn : processPhoto d n = none := by simp [processPhoto, hget, hfirst]
              rw [hn] at h
              cases h
          | list vs =>
              have hn : processPhoto d n = none := by simp [processPhoto, hget, hfirst]
              rw [hn] at h
              cases h

theorem processPhoto_get_ne {d d' : Dict} {n m : String}
    (h : processPhoto d n = some d') (hm : m ≠ n) :
    alistGet d' m = alistGet d m := by
  rcases processPhoto_inv h with ⟨_, rfl⟩ | ⟨p, bs, _, _, rfl⟩
  · rfl
  · exact alistGet_dictSet_ne d _ hm

theorem processPhoto_mem_ne {d d' : Dict} {n m : String} {w : PyVal}
    (h : processPhoto d n = some d') (hm : m ≠ n) (hmem : (m, w) ∈ d) :
    (m, w) ∈ d' := by
  rcases processPhoto_inv h with ⟨_, rfl⟩ | ⟨p, bs, _, _, rfl⟩
  · exact hmem
  · exact mem_dictSet_of_ne d hm hmem

theorem processPhoto_nodup_keys {d d' : Dict} {n : String}
    (h : processPhoto d n = some d') (hnd : (d.map Prod.fst).Nodup) :
    (d'.map Prod.fst).Nodup := by
  rcases processPhoto_inv h with ⟨_, rfl⟩ | ⟨p, bs, _, _, rfl⟩
  · exact hnd
  · exact nodup_keys_dictSet hnd

/-! ### Join lemmas -/

theorem intercalate_go_append (sep x : String) :
    ∀ (bs : List String) (y : String),
      x ++ String.intercalate.go y sep bs = String.intercalate.go (x ++ y) sep bs
  | [], _ => rfl
  | b :: bs, y => by
      show x ++ String.intercalate.go (y ++ sep ++ b) sep bs
        = String.intercalate.go (x ++ y ++ sep ++ b) sep bs
      rw [intercalate_go_append sep x bs (y ++ sep ++ b)]
      rw [← String.append_assoc, ← String.append_assoc]

theorem joinWith_go (sep : String) :
    ∀ (ss : List String) (a : String),
      joinWith sep (PyVal.str a :: ss.map PyVal.str)
        = some (String.intercalate.go a sep ss)
  | [], _ => rfl
  | b :: bs, a => by
      have ih := joinWith_go sep bs b
      show (joinWith sep (PyVal.str b :: bs.map PyVal.str)).map (fun t => a ++ sep ++ t)
        = some (String.intercalate.go (a ++ sep ++ b) sep bs)
      rw [ih, Option.map_some']
      rw [show a ++ sep ++ String.intercalate.go b sep bs
          = (a ++ sep) ++ String.intercalate.go b sep bs from rfl]
      rw [intercalate_go_append sep (a ++ sep) bs b]

theorem joinWith_map_str (sep : String) :
    ∀ ss : List String, joinWith sep (ss.map PyVal.str) = some (String.intercalate sep ss)
  | [] => rfl
  | a :: as => by
      rw [List.map_cons, joinWith_go sep as a]
      rfl

/-! ### `ldap_entry` structural lemmas -/

theorem ldap_entry_eq (plugin : LDAPPlugin) (req : Request) (execute : Executor) :
    ldap_entry plugin req execute =
      ldap_entry_of_result (execute plugin.get_connection (ldap_entry_query req)) := rfl

theorem ldap_entry_of_result_not_single :
    ∀ {result : List (String × Dict)}, result.length ≠ 1 →
      ldap_entry_of_result result = some .empty
  | [], _ => rfl
  | [_], h => absurd rfl h
  | _ :: _ :: _, _ => rfl

theorem ldap_entry_of_result_single (d : String) (attrs a1 a2 : Dict)
    (h1 : processPhoto attrs "jpegPhoto" = some a1)
    (h2 : processPhoto a1 "thumbnailPhoto" = some a2) :
    ldap_entry_of_result [(d, attrs)] = some (.entry d (sort_attributes a2)) := by
  simp [ldap_entry_of_result, h1, h2]

theorem ldap_entry_of_result_single_inv {d : String} {attrs : Dict} {e : ResultDict}
    (h : ldap_entry_of_result [(d, attrs)] = some e) :
    ∃ a1 a2, processPhoto attrs "jpegPhoto" = some a1 ∧
      processPhoto a1 "thumbnailPhoto" = some a2 ∧
      e = .entry d (sort_attributes a2) := by
  cases h1 : processPhoto attrs "jpegPhoto" with
  | none =>
      have hn : ldap_entry_of_result [(d, attrs)] = none := by
        simp [ldap_entry_of_result, h1]
      rw [hn] at h
      cases h
  | some a1 =>
      cases h2 : processPhoto a1 "thumbnailPhoto" with
      | none =>
          have hn : ldap_entry_of_result [(d, attrs)] = none := by
            simp [ldap_entry_of_result, h1, h2]
          rw [hn] at h
          cases h
      | some a2 =>
          rw [ldap_entry_of_result_single d attrs a1 a2 h1 h2] at h
          exact ⟨a1, a2, rfl, h2, (Option.some.inj h).symm⟩

/-! ### Claims -/

/-- C1: for every query result of the entry-detail lookup that is empty or
has more than one entry, `ldap_entry` returns the empty mapping, and the
entry-properties table values therefore yield no attribute rows. -/
theorem C1_ambiguous_lookup_yields_empty_display
    (plugin : LDAPPlugin) (req : Request) (execute : Executor)
    (h : (execute plugin.get_connection (ldap_entry_query req)).length ≠ 1) :
    ldap_entry plugin req execute = some ResultDict.empty ∧
      LDAPEntryPropertiesTableValues_values ResultDict.empty = [] := by
  refine ⟨?_, rfl⟩
  rw [ldap_entry_eq]
  exact ldap_entry_of_result_not_single h

/-- C1 witness: an executor returning no entries yields the empty mapping
and an empty table. -/
theorem C1_witness :
    ldap_entry ⟨⟨0⟩, "uid", fun _ => []⟩ ⟨[]⟩ (fun _ _ => []) = some ResultDict.empty ∧
      LDAPEntryPropertiesTableValues_values ResultDict.empty = [] :=
  C1_ambiguous_lookup_yields_empty_display ⟨⟨0⟩, "uid", fun _ => []⟩ ⟨[]⟩
    (fun _ _ => []) (by decide)

/-- C2: for every request, the entry-detail lookup executes exactly one
LDAP query: a base-scope search on the request's `dn` parameter with
filter `(objectclass=*)` requesting all attributes, against the
connection obtained from the plugin's `get_connection()`. -/
theorem C2_single_base_scope_query
    (plugin : LDAPPlugin) (req : Request) (execute : Executor) :
    (ldap_entry_run plugin req execute).1 =
      [(plugin.get_connection,
        ⟨req.get_param "dn", "(objectclass=*)", SearchScope.BASE,
          AttrSelection.ALL_ATTRIBUTES⟩)] := rfl

/-- C3: in a single-entry query result, a present `jpegPhoto` or
`thumbnailPhoto` attribute whose (first) value is a byte string is
replaced by inline image markup whose payload is the base64 encoding of
the raw photo bytes. -/
theorem C3_photo_inline_markup
    (plugin : LDAPPlugin) (req : Request) (execute : Executor)
    (d : String) (attrs : Dict) (name : String) (p : PyVal) (bs : List Nat)
    (e : ResultDict)
    (hres : execute plugin.get_connection (ldap_entry_query req) = [(d, attrs)])
    (hname : name = "jpegPhoto" ∨ name = "thumbnailPhoto")
    (hget : alistGet attrs name = some p)
    (hfirst : photoFirst p = some (PyVal.bytes bs))
    (hentry : ldap_entry plugin req execute = some e) :
    (name, PyVal.list [PyVal.str
        ("<img src=\"data:image/jpeg;base64," ++ encodebytes bs ++ "\" />")])
      ∈ e.get_attributes := by
  rw [ldap_entry_eq, hres] at hentry
  obtain ⟨a1, a2, h1, h2, rfl⟩ := ldap_entry_of_result_single_inv hentry
  have hmem2 : (name, PyVal.list [PyVal.str (img_markup bs)]) ∈ a2 := by
    rcases hname with rfl | rfl
    · rw [processPhoto_bytes hget hfirst] at h1
      obtain rfl := Option.some.inj h1
      exact processPhoto_mem_ne h2 (by decide) (mem_dictSet_self attrs _ _)
    · have hgetA1 : alistGet a1 "thumbnailPhoto" = some p := by
        rw [processPhoto_get_ne h1 (by decide)]
        exact hget
      rw [processPhoto_bytes hgetA1 hfirst] at h2
      obtain rfl := Option.some.inj h2
      exact mem_dictSet_self a1 _ _
  exact mem_sort_attributes.mpr hmem2

/-- C3 witness: a single entry with `jpegPhoto` bytes `[1, 2]` ends with
the inline markup of their base64 encoding. -/
theorem C3_witness :
    ("jpegPhoto", PyVal.list [PyVal.str
        ("<img src=\"data:image/jpeg;base64," ++ encodebytes [1, 2] ++ "\" />")])
      ∈ (ResultDict.entry "d1"
          [("jpegPhoto", PyVal.list [PyVal.str (img_markup [1, 2])])]).get_attributes :=
  C3_photo_inline_markup ⟨⟨0⟩, "uid", fun _ => []⟩ ⟨[]⟩
    (fun _ _ => [("d1", [("jpegPhoto", PyVal.bytes [1, 2])])])
    "d1" [("jpegPhoto", PyVal.bytes [1, 2])] "jpegPhoto" (PyVal.bytes [1, 2]) [1, 2]
    (ResultDict.entry "d1" [("jpegPhoto", PyVal.list [PyVal.str (img_markup [1, 2])])])
    rfl (Or.inl rfl) rfl rfl rfl

/-- C4: in a single-entry query result, after the photo post-processing
the returned `attributes` list is the photo-processed attribute mapping
sorted in ascending alphabetical order of attribute names. -/
theorem C4_attributes_sorted_by_name
    (plugin : LDAPPlugin) (req : Request) (execute : Executor)
    (d : String) (attrs : Dict) (e : ResultDict)
    (hres : execute plugin.get_connection (ldap_entry_query req) = [(d, attrs)])
    (hentry : ldap_entry plugin req execute = some e) :
    ∃ a1 a2, processPhoto attrs "jpegPhoto" = some a1 ∧
      processPhoto a1 "thumbnailPhoto" = some a2 ∧
      e.get_attributes.Pairwise attrLe ∧ e.get_attributes.Perm a2 := by
  rw [ldap_entry_eq, hres] at hentry
  obtain ⟨a1, a2, h1, h2, rfl⟩ := ldap_entry_of_result_single_inv hentry
  exact ⟨a1, a2, h1, h2, sort_attributes_sorted a2, sort_attributes_perm a2⟩

/-- C4 witness: two attributes arriving out of order come back sorted. -/
theorem C4_witness :
    ∃ a1 a2,
      processPhoto [("b", PyVal.str "x"), ("a", PyVal.str "y")] "jpegPhoto" = some a1 ∧
      processPhoto a1 "thumbnailPhoto" = some a2 ∧
      (ResultDict.entry "d1"
        [("a", PyVal.str "y"), ("b", PyVal.str "x")]).get_attributes.Pairwise attrLe ∧
      (ResultDict.entry "d1"
        [("a", PyVal.str "y"), ("b", PyVal.str "x")]).get_attributes.Perm a2 :=
  C4_attributes_sorted_by_name ⟨⟨0⟩, "uid", fun _ => []⟩ ⟨[]⟩
    (fun _ _ => [("d1", [("b", PyVal.str "x"), ("a", PyVal.str "y")])])
    "d1" [("b", PyVal.str "x"), ("a", PyVal.str "y")]
    (ResultDict.entry "d1" [("a", PyVal.str "y"), ("b", PyVal.str "x")])
    rfl rfl

/-- C5: the search results table rows are exactly
`get_search_results({'query': request.params.get('form.widgets.query')})`,
and the registered columns are uid (showing the plugin's
`uid_attribute`), cn and mail. -/
theorem C5_search_results_and_columns (plugin : LDAPPlugin) (req : Request) :
    LDAPPluginSearchResultsValues_values plugin req =
        plugin.get_search_results [("query", req.get_param "form.widgets.query")] ∧
      search_table_columns.map ColumnReg.name = ["uid", "cn", "mail"] ∧
      search_table_columns.map (fun c => c.attr_of plugin) =
        [plugin.uid_attribute, "cn", "mail"] :=
  ⟨rfl, rfl, rfl⟩

/-- C6 counterexample: the add form's registered inner tab forms are the
four named ones, so their number is not three as the claim states. -/
theorem C6_counterexample :
    add_form_tabs.map InnerTabReg.name =
        ["connection", "users-schema", "groups-schema", "search-settings"] ∧
      ¬ add_form_tabs.length = 3 := by
  constructor
  · rfl
  · decide

/-- C6 (amended): the LDAP plugin add form is composed of four sub-forms,
named connection, users-schema, groups-schema and search-settings,
registered as inner tab forms against the add form. -/
theorem C6_add_form_has_four_tabs :
    add_form_tabs.map InnerTabReg.name =
        ["connection", "users-schema", "groups-schema", "search-settings"] ∧
      add_form_tabs.length = 4 :=
  ⟨rfl, rfl⟩

/-- C7: the edit form carries the same four sub-forms as the add form,
with identical names and field selections, the connection fields being
supplied by the shared `ldap_plugin_connection_fields` adapter on both
sides. -/
theorem C7_edit_tabs_match_add_tabs :
    edit_form_tabs.map (fun t => (t.name, resolved_fields t)) =
        add_form_tabs.map (fun t => (t.name, resolved_fields t)) ∧
      (add_form_tabs.filter (fun t => t.connection_subform)).map resolved_fields =
        [ldap_plugin_connection_fields] ∧
      (edit_form_tabs.filter (fun t => t.connection_subform)).map resolved_fields =
        [ldap_plugin_connection_fields] :=
  ⟨rfl, rfl, rfl⟩

/-- C8: `LDAPColumn.get_value` returns the empty string when the column's
attribute is absent, the elements joined with `'<br /> '` when the value
is a list, and the value unchanged otherwise. -/
theorem C8_column_get_value (attr : String) (entry : String × Dict) :
    (alistGet entry.2 attr = none →
        LDAPColumn_get_value attr entry = some (PyVal.str "")) ∧
      (∀ ss : List String,
        alistGet entry.2 attr = some (PyVal.list (ss.map PyVal.str)) →
          LDAPColumn_get_value attr entry
            = some (PyVal.str (String.intercalate "<br /> " ss))) ∧
      (∀ s, alistGet entry.2 attr = some (PyVal.str s) →
        LDAPColumn_get_value attr entry = some (PyVal.str s)) ∧
      (∀ bs, alistGet entry.2 attr = some (PyVal.bytes bs) →
        LDAPColumn_get_value attr entry = some (PyVal.bytes bs)) := by
  refine ⟨fun h => ?_, fun ss h => ?_, fun s h => ?_, fun bs h => ?_⟩
  · simp [LDAPColumn_get_value, h, joinWith]
  · simp [LDAPColumn_get_value, h, joinWith_map_str]
  · simp [LDAPColumn_get_value, h]
  · simp [LDAPColumn_get_value, h]

/-- C8 witness: a two-element list value is joined with `'<br /> '`. -/
theorem C8_witness :
    LDAPColumn_get_value "cn" ("d", [("cn", PyVal.list [PyVal.str "a", PyVal.str "b"])])
      = some (PyVal.str (String.intercalate "<br /> " ["a", "b"])) :=
  (C8_column_get_value "cn" ("d", [("cn", PyVal.list [PyVal.str "a", PyVal.str "b"])])).2.1
    ["a", "b"] rfl

/-- C9: for a single-entry query result, the entry-detail lookup returns a
mapping with exactly the keys `dn` and `attributes`, whose `dn` is the
distinguished name from the returned entry (whatever the request's `dn`
parameter was). -/
theorem C9_result_keys_and_entry_dn
    (plugin : LDAPPlugin) (req : Request) (execute : Executor)
    (d : String) (attrs : Dict) (e : ResultDict)
    (hres : execute plugin.get_connection (ldap_entry_query req) = [(d, attrs)])
    (hentry : ldap_entry plugin req execute = some e) :
    e.keys = ["dn", "attributes"] ∧ e.get_dn = some d := by
  rw [ldap_entry_eq, hres] at hentry
  obtain ⟨a1, a2, h1, h2, rfl⟩ := ldap_entry_of_result_single_inv hentry
  exact ⟨rfl, rfl⟩

/-- C9 witness: a request whose `dn` parameter differs from the returned
entry's DN still yields the entry's DN. -/
theorem C9_witness :
    (ResultDict.entry "d1" [("cn", PyVal.str "c")]).keys = ["dn", "attributes"] ∧
      (ResultDict.entry "d1" [("cn", PyVal.str "c")]).get_dn = some "d1" :=
  C9_result_keys_and_entry_dn ⟨⟨0⟩, "uid", fun _ => []⟩ ⟨[("dn", "cn=other")]⟩
    (fun _ _ => [("d1", [("cn", PyVal.str "c")])])
    "d1" [("cn", PyVal.str "c")]
    (ResultDict.entry "d1" [("cn", PyVal.str "c")]) rfl rfl

/-- C10: for a single-entry result whose photo attribute holds a list,
only the first list element is encoded, and after processing the value is
a one-element list holding the markup string, for list and plain byte
values alike. -/
theorem C10_photo_first_element_one_element_list
    (plugin : LDAPPlugin) (req : Request) (execute : Executor)
    (d : String) (attrs : Dict) (name : String) (bs : List Nat)
    (rest : List PyVal) (e : ResultDict)
    (hres : execute plugin.get_connection (ldap_entry_query req) = [(d, attrs)])
    (hname : name = "jpegPhoto" ∨ name = "thumbnailPhoto")
    (hnd : (attrs.map Prod.fst).Nodup)
    (hval : alistGet attrs name = some (PyVal.list (PyVal.bytes bs :: rest)) ∨
      alistGet attrs name = some (PyVal.bytes bs))
    (hentry : ldap_entry plugin req execute = some e) :
    alistGet e.get_attributes name = some (PyVal.list [PyVal.str (img_markup bs)]) := by
  rw [ldap_entry_eq, hres] at hentry
  obtain ⟨a1, a2, h1, h2, rfl⟩ := ldap_entry_of_result_single_inv hentry
  obtain ⟨p, hget, hfirst⟩ :
      ∃ p, alistGet attrs name = some p ∧ photoFirst p = some (PyVal.bytes bs) := by
    rcases hval with hv | hv
    · exact ⟨_, hv, rfl⟩
    · exact ⟨_, hv, rfl⟩
  have hnd2 : (a2.map Prod.fst).Nodup :=
    processPhoto_nodup_keys h2 (processPhoto_nodup_keys h1 hnd)
  have hval2 : alistGet a2 name = some (PyVal.list [PyVal.str (img_markup bs)]) := by
    rcases hname with rfl | rfl
    · rw [processPhoto_bytes hget hfirst] at h1
      obtain rfl := Option.some.inj h1
      rw [processPhoto_get_ne h2 (by decide)]
      exact alistGet_dictSet_self attrs _ _
    · have hgetA1 : alistGet a1 "thumbnailPhoto" = some p := by
        rw [processPhoto_get_ne h1 (by decide)]
        exact hget
      rw [processPhoto_bytes hgetA1 hfirst] at h2
      obtain rfl := Option.some.inj h2
      exact alistGet_dictSet_self a1 _ _
  calc alistGet (ResultDict.entry d (sort_attributes a2)).get_attributes name
      = alistGet a2 name := alistGet_sort_attributes name hnd2
    _ = some (PyVal.list [PyVal.str (img_markup bs)]) := hval2

/-- C10 witness: a two-element `thumbnailPhoto` list is reduced to a
one-element list holding the markup of the first element only. -/
theorem C10_witness :
    alistGet (ResultDict.entry "d1"
        [("thumbnailPhoto", PyVal.list [PyVal.str (img_markup [1])])]).get_attributes
      "thumbnailPhoto" = some (PyVal.list [PyVal.str (img_markup [1])]) :=
  C10_photo_first_element_one_element_list ⟨⟨0⟩, "uid", fun _ => []⟩ ⟨[]⟩
    (fun _ _ => [("d1", [("thumbnailPhoto",
      PyVal.list [PyVal.bytes [1], PyVal.bytes [2]])])])
    "d1" [("thumbnailPhoto", PyVal.list [PyVal.bytes [1], PyVal.bytes [2]])]
    "thumbnailPhoto" [1] [PyVal.bytes [2]]
    (ResultDict.entry "d1" [("thumbnailPhoto", PyVal.list [PyVal.str (img_markup [1])])])
    rfl (Or.inr rfl) (by decide) (Or.inl rfl) rfl

end PyamsAuthLdap
